import Mathlib

/-!
Shallow embedding of the FIX field-value codec (`fix/types.go`) and proofs
about its claims.  Bytes are modelled as `Nat` (ASCII codes), Go byte slices
as `List Nat`, and the distinction between a nil slice and a non-nil slice as
`Option (List Nat)` (`none` = nil).  Go's `uint64` is modelled as `Nat` with
explicit overflow checks as in the source; Go's platform `int` (64-bit) as
`Int` with explicit two's-complement wrapping; Go's `float64` as `F64`
(either an infinity, or a finite value carried as the exact rational —
exact arithmetic standing in for binary rounding; no claim settled here
depends on rounding of finite values).  Fallible float routines return
Go-style (value, optional-error) pairs, because the source propagates
values (such as infinities from range errors) alongside errors.
-/

namespace Fix

/-- Decidable equality for decoder results. -/
instance {e a : Type} [DecidableEq e] [DecidableEq a] : DecidableEq (Except e a) := fun x y =>
  match x, y with
  | .ok u, .ok v =>
    if h : u = v then isTrue (congrArg Except.ok h)
    else isFalse (fun hh => h (Except.ok.inj hh))
  | .error u, .error v =>
    if h : u = v then isTrue (congrArg Except.error h)
    else isFalse (fun hh => h (Except.error.inj hh))
  | .ok _, .error _ => isFalse (fun hh => Except.noConfusion hh)
  | .error _, .ok _ => isFalse (fun hh => Except.noConfusion hh)

/-- Error kinds returned by the decoders, one constructor per distinct
error site in the source. -/
inductive Err where
  | emptySlice      -- "invalid input: empty byte slice"
  | nonNumeric      -- "invalid input: non-numeric character"
  | overflow        -- "overflow: value too large for uint64"
  | emptyFloat      -- "invalid syntax: empty string"
  | onlyMinus       -- "invalid syntax: ony minus sign"
  | badChar         -- "invalid syntax: invalid character"
  | badTail         -- "invalid syntax: unparsable tail left"
  | badFrac         -- "cannot parse fractional part"
  | badMantissa     -- "cannot find mantissa"
  | badExp          -- "cannot parse exponent"
  | badExpSign      -- "cannot parse exponent from string"
  | badExpTail      -- "cannot parse exponent tail"
  | badFloat        -- "invalid syntax" / strconv.ParseFloat syntax failure
  | rangeErr        -- strconv.ParseFloat ErrRange (overflow to an infinity)
  | stdMantissa     -- "cannot parse mantissa"
  | stdExp          -- "cannot parse exponent by strconv"
  | badTime         -- time.Parse failure
  | typeMismatch    -- "could not convert ..."
  deriving DecidableEq

/-- Value of a big-endian ASCII digit string, accumulated exactly like the
Go loops do: acc = acc*10 + (c - '0'). -/
def digitsVal (s : List Nat) : Nat :=
  s.foldl (fun a c => a * 10 + (c - 48)) 0

/-- math.MaxUint64. -/
def maxUint64 : Nat := 18446744073709551615

/-- Loop body of `bytesToUint` (source lines 518-528): digit check, then an
overflow check against MaxUint64 before each multiply-add. -/
def bytesToUintLoop : List Nat → Nat → Except Err Nat
  | [], acc => .ok acc
  | c :: rest, acc =>
    if c < 48 ∨ 57 < c then .error .nonNumeric
    else if maxUint64 / 10 < acc ∨ (acc = maxUint64 / 10 ∧ maxUint64 % 10 < c - 48) then
      .error .overflow
    else bytesToUintLoop rest (acc * 10 + (c - 48))

/-- Embeds `bytesToUint`. -/
def bytesToUint (d : List Nat) : Except Err Nat :=
  match d with
  | [] => .error .emptySlice
  | _ => bytesToUintLoop d 0

/-- Embeds `uintToBytes` (strconv.AppendUint base 10): big-endian decimal
digits, "0" for zero. -/
def uintToBytes (n : Nat) : List Nat :=
  if n = 0 then [48] else ((Nat.digits 10 n).reverse.map (fun d => d + 48))

/-- Two's-complement wrap to 64 bits, the behaviour of Go's `int`
arithmetic on overflow. -/
def wrap64 (x : Int) : Int := (x + 2 ^ 63) % 2 ^ 64 - 2 ^ 63

/-- Loop body of `bytesToInt` (source lines 746-752): no overflow check,
native signed arithmetic (wrapping). -/
def bytesToIntLoop : List Nat → Int → Except Err Int
  | [], acc => .ok acc
  | c :: rest, acc =>
    if c < 48 ∨ 57 < c then .error .nonNumeric
    else bytesToIntLoop rest (wrap64 (acc * 10 + ((c : Int) - 48)))

/-- Embeds `bytesToInt`: optional leading '-' or '+', then digits; the empty
digit body after a sign is accepted and yields 0. -/
def bytesToInt (d : List Nat) : Except Err Int :=
  match d with
  | [] => .error .emptySlice
  | c :: rest =>
    let sb : Int × List Nat :=
      if c = 45 then (-1, rest) else if c = 43 then (1, rest) else (1, c :: rest)
    match bytesToIntLoop sb.2 0 with
    | .error e => .error e
    | .ok r => .ok (wrap64 (r * sb.1))

/-- Embeds `intToBytes` (strconv.AppendInt base 10). -/
def intToBytes (v : Int) : List Nat :=
  if v < 0 then 45 :: uintToBytes v.natAbs else uintToBytes v.toNat

/-- ASCII digit test as a Bool. -/
def isDigitB (c : Nat) : Bool := decide (48 ≤ c) && decide (c ≤ 57)

/-- Embeds the `allowedFloat` table: the characters "0123456789.eE+-". -/
def allowedFloatChar (c : Nat) : Bool :=
  isDigitB c || decide (c = 46) || decide (c = 101) || decide (c = 69) ||
    decide (c = 43) || decide (c = 45)

/-- A float64 value as this embedding observes it: an infinity, or a finite
value carried as the exact rational it was parsed from (exact arithmetic
standing in for binary rounding of finite values). -/
inductive F64 where
  | fin (q : ℚ)
  | inf (neg : Bool)
  deriving DecidableEq

/-- The smallest exact magnitude that float64 rounding sends to infinity:
half an ulp above the largest finite double (ties round to the even
2 ^ 1024). -/
def f64OverflowBound : ℚ := (2 : ℚ) ^ 1024 - (2 : ℚ) ^ 970

/-- Converts a parsed decimal — sign, mantissa digits m and decimal
exponent e2, denoting ±(m * 10 ^ e2) — to a float64 result the way
strconv's conversion behaves at the range boundaries: overflow yields an
infinity with a range error (Go: ±Inf plus ErrRange), magnitudes far below
the subnormal range yield 0 with no error, and other finite results are
kept exact.  Like strconv's obvious-overflow/underflow early exits on the
decimal point position, the two coarse exponent tests make the conversion
computable without materialising 10 ^ e2 for astronomical exponents; they
fire only where the outcome is already forced. -/
def f64OfParts (neg : Bool) (m : Nat) (e2 : Int) : F64 × Option Err :=
  if m = 0 then (.fin 0, none)
  else if 309 ≤ e2 then (.inf neg, some .rangeErr)
  else if ((Nat.digits 10 m).length : Int) + e2 ≤ -331 then (.fin 0, none)
  else
    let x : ℚ := (m : ℚ) * (10 : ℚ) ^ e2
    if f64OverflowBound ≤ x then (.inf neg, some .rangeErr)
    else (.fin (if neg then -x else x), none)

/-- Models the Go standard library function strconv.ParseFloat (the fallback
"standard, fully general decimal-to-binary parser"): optional sign, decimal
mantissa with at least one digit, optional fractional part, optional signed
exponent; like Go it returns a value together with an optional error —
(0, syntax error) on malformed input, (±Inf, range error) on overflow, and
otherwise the parsed value with no error.  The stdlib's Inf/NaN spellings,
hex floats and digit-group underscores are not modelled (no reachable call
in this development involves them), and finite values are kept as exact
rationals per this file's convention. -/
def parseFloatStd (s : List Nat) : F64 × Option Err :=
  let sb : Bool × List Nat :=
    match s with
    | 45 :: t => (true, t)
    | 43 :: t => (false, t)
    | _ => (false, s)
  let neg := sb.1
  let r1 := sb.2
  let ip := r1.takeWhile isDigitB
  let r2 := r1.drop ip.length
  let fp : List Nat :=
    match r2 with
    | 46 :: t => t.takeWhile isDigitB
    | _ => []
  let r3 : List Nat :=
    match r2 with
    | 46 :: t => t.drop fp.length
    | _ => r2
  if ip.length + fp.length = 0 then (.fin 0, some .badFloat)
  else
    let m := digitsVal (ip ++ fp)
    match r3 with
    | [] => f64OfParts neg m (-(fp.length : Int))
    | c :: t =>
      if c = 101 ∨ c = 69 then
        let eb : Bool × List Nat :=
          match t with
          | 45 :: u => (true, u)
          | 43 :: u => (false, u)
          | _ => (false, t)
        let ed := eb.2.takeWhile isDigitB
        if ed.length = 0 ∨ ed.length ≠ eb.2.length then (.fin 0, some .badFloat)
        else
          let e : Int := if eb.1 then -(digitsVal ed : Int) else (digitsVal ed : Int)
          f64OfParts neg m (e - (fp.length : Int))
      else (.fin 0, some .badFloat)

/-- The fast path's fallback pattern (source lines 656-661 and 702-708):
call the standard parser; a failure whose accompanying value is not an
infinity is reported as the site's own error with value 0, while an
infinite result is returned as a success, exactly as
"if err != nil && !math.IsInf(f, 0) { return 0, err }; return f, nil". -/
def stdFallback (s : List Nat) (e : Err) : F64 × Option Err :=
  match parseFloatStd s with
  | (f, some _) =>
    match f with
    | .inf b => (.inf b, none)
    | .fin _ => (.fin 0, some e)
  | (f, none) => (f, none)

/-- Result of the fractional/exponent scanning loops of `bytesToFloat`:
either the loop hit its safety bound and the whole input falls back to the
standard parser, or it stopped normally with the updated index, accumulator
and remaining bytes. -/
inductive LoopRes where
  | fb : LoopRes
  | done : Nat → Nat → List Nat → LoopRes
  deriving DecidableEq

/-- Integer-part loop of `bytesToFloat` (source lines 608-627): scans digits
into the accumulator, rejecting any character outside `allowedFloat`.  The
in-loop fallback at i > 18 is unreachable here because this loop only runs
when the total length is at most 18, so it is not modelled. -/
def floatIntLoop : List Nat → Nat → Nat → Except Err (Nat × Nat × List Nat)
  | [], i, d => .ok (i, d, [])
  | c :: rest, i, d =>
    if ¬ allowedFloatChar c then .error .badChar
    else if 48 ≤ c ∧ c ≤ 57 then floatIntLoop rest (i + 1) (d * 10 + (c - 48))
    else .ok (i, d, c :: rest)

/-- Fractional-part loop of `bytesToFloat` (source lines 651-666): keeps
accumulating into the same accumulator; after each digit, if the mantissa
width i - j reaches the size of the pow10 table (17), fall back. -/
def floatFracLoop : List Nat → Nat → Nat → Nat → LoopRes
  | [], i, d, _ => .done i d []
  | c :: rest, i, d, j =>
    if 48 ≤ c ∧ c ≤ 57 then
      let d' := d * 10 + (c - 48)
      let i' := i + 1
      if 17 ≤ i' - j then .fb
      else floatFracLoop rest i' d' j
    else .done i d (c :: rest)

/-- Exponent-digit loop of `bytesToFloat` (source lines 696-712): accumulates
the exponent, falling back once it exceeds 32; the first component of the
result counts the digits consumed. -/
def floatExpLoop : List Nat → Nat → Nat → LoopRes
  | [], n, e => .done n e []
  | c :: rest, n, e =>
    if 48 ≤ c ∧ c ≤ 57 then
      let e' := e * 10 + (c - 48)
      if 32 < e' then .fb
      else floatExpLoop rest (n + 1) e'
    else .done n e (c :: rest)

/-- Applies the sign recorded from a leading minus. -/
def floatSign (minus : Bool) (f : ℚ) : ℚ := if minus then -f else f

/-- Exponent phase of `bytesToFloat` (source lines 680-727): expects the rest
to start with e/E, a signed digit run, and nothing after it. -/
def floatExpPhase (s : List Nat) (minus : Bool) (f : ℚ) (rest : List Nat) :
    F64 × Option Err :=
  match rest with
  | [] => (.fin 0, some .badFloat)
  | c :: rest1 =>
    if c = 101 ∨ c = 69 then
      match rest1 with
      | [] => (.fin 0, some .badExp)
      | c2 :: rest2 =>
        let sd : Bool × List Nat :=
          if c2 = 43 ∨ c2 = 45 then (decide (c2 = 45), rest2) else (false, c2 :: rest2)
        match sd.2 with
        | [] => (.fin 0, some .badExpSign)
        | _ =>
          match floatExpLoop sd.2 0 0 with
          | .fb => stdFallback s .stdExp
          | .done n e rest3 =>
            if n = 0 then (.fin 0, some .badExpTail)
            else
              let e' : Int := if sd.1 then -(e : Int) else (e : Int)
              let f2 := f * (10 : ℚ) ^ e'
              if rest3 = [] then (.fin (floatSign minus f2), none)
              else (.fin 0, some .badFloat)
    else (.fin 0, some .badFloat)

/-- Middle phase of `bytesToFloat` after the integer-digit scan (source
lines 641-679): optional fractional part, then the exponent phase.  `rest`
is nonempty at every call site; the empty case mirrors the unreachable
out-of-bounds read. -/
def floatFracPhase (s : List Nat) (minus : Bool) (j i d : Nat) (rest : List Nat) :
    F64 × Option Err :=
  match rest with
  | [] => (.fin 0, some .badFloat)
  | c :: rest1 =>
    if c = 46 then
      match rest1 with
      | [] =>
        if s.length = 2 ∧ s.headI = 48 then (.fin 0, none)
        else (.fin 0, some .badFrac)
      | _ =>
        let i1 := i + 1
        let k := i1
        match floatFracLoop rest1 i1 d j with
        | .fb => stdFallback s .stdMantissa
        | .done i2 d2 rest2 =>
          if i2 < k then (.fin 0, some .badMantissa)
          else
            let f : ℚ := (d2 : ℚ) / (10 : ℚ) ^ (i2 - k)
            if rest2 = [] then (.fin (floatSign minus f), none)
            else floatExpPhase s minus f rest2
    else floatExpPhase s minus (d : ℚ) (c :: rest1)

/-- Embeds `bytesToFloat` (source lines 588-728): fast path for inputs of
length at most 18, delegation to the standard parser above that (whose
value-and-error pair — including an infinity with a range error — is
returned directly, as in "return strconv.ParseFloat(string(s), 64)"). -/
def bytesToFloat (s : List Nat) : F64 × Option Err :=
  match s with
  | [] => (.fin 0, some .emptyFloat)
  | c0 :: rest0 =>
    let minus := c0 = 45
    if minus ∧ rest0 = [] then (.fin 0, some .onlyMinus)
    else if 18 < s.length then parseFloatStd s
    else
      let j := if minus then 1 else 0
      let body := if minus then rest0 else s
      match floatIntLoop body j 0 with
      | .error e => (.fin 0, some e)
      | .ok (i, d, rest) =>
        if c0 ≠ 46 ∨ s.length = 1 then
          if i ≤ j then (.fin 0, some .badTail)
          else if rest = [] then (.fin (floatSign minus (d : ℚ)), none)
          else floatFracPhase s minus j i d rest
        else floatFracPhase s minus j i d rest

/-- Minimal non-exponential decimal rendering, modelling strconv.AppendFloat
with format 'f' and precision -1: infinities render as "+Inf"/"-Inf"; a
finite value (exact rational with a finite decimal expansion here) renders
as its shortest plain decimal; the search bound comfortably covers float64's
decimal range.  No theorem below depends on this rendering. -/
def floatFmt : F64 → List Nat
  | .inf true => [45, 73, 110, 102]
  | .inf false => [43, 73, 110, 102]
  | .fin f =>
    let sgn : List Nat := if f < 0 then [45] else []
    let a : ℚ := |f|
    let k := ((List.range 401).find? (fun k => (a * (10 : ℚ) ^ k).den = 1)).getD 0
    let m := (a * (10 : ℚ) ^ k).num.toNat
    let ipart := m / 10 ^ k
    let fpart := m % 10 ^ k
    if k = 0 then sgn ++ uintToBytes m
    else
      let fd := uintToBytes fpart
      sgn ++ uintToBytes ipart ++ [46] ++ (List.replicate (k - fd.length) 48 ++ fd)

/-- Embeds `floatToBytes`: zero is special-cased to "0". -/
def floatToBytes (f : F64) : List Nat :=
  if f = .fin 0 then [48] else floatFmt f

/-- Calendar instant, modelling the components Go's time.Time exposes
through Date(), Clock() and Nanosecond(). -/
structure DateTime where
  year : Int
  month : Nat
  day : Nat
  hour : Nat
  minute : Nat
  second : Nat
  nsec : Nat
  deriving DecidableEq

/-- Embeds `timeToBytes` (source lines 536-566): 21 bytes
YYYYMMDD-HH:MM:SS.mmm with the year clamped to at least 0.  Each entry is a
Go byte conversion, i.e. truncation mod 256; the positions whose source
expression already ends in a mod-10 cannot exceed 57, so only the two
unreduced positions carry the mod 256. -/
def timeToBytes (t : DateTime) : List Nat :=
  let year := if t.year < 0 then 0 else t.year.toNat
  let milli := t.nsec / 1000000
  [(48 + year / 1000) % 256,
   48 + (year / 100) % 10,
   48 + (year / 10) % 10,
   48 + year % 10,
   48 + (t.month / 10) % 10,
   48 + t.month % 10,
   48 + (t.day / 10) % 10,
   48 + t.day % 10,
   45,
   48 + (t.hour / 10) % 10,
   48 + t.hour % 10,
   58,
   48 + (t.minute / 10) % 10,
   48 + t.minute % 10,
   58,
   48 + (t.second / 10) % 10,
   48 + t.second % 10,
   46,
   (48 + milli / 100) % 256,
   48 + (milli / 10) % 10,
   48 + milli % 10]

/-- Value of a two-digit ASCII field. -/
def twoDigits (a b : Nat) : Nat := (a - 48) * 10 + (b - 48)

/-- Modelled from the spec: the layout constant TimeLayout and Go's
time.Parse are not under src/ (the spec says decoding "delegates to a
standard calendar parser configured with the exact same layout string",
the fixed 21-byte YYYYMMDD-HH:MM:SS.mmm).  This parser demands exactly that
shape — digits in every numeric position, the literal separators, and
fields inside calendar range — and reports any mismatch as an error;
exhaustive per-month day-count validation is elided. -/
def parseTimeLayout (bs : List Nat) : Except Err DateTime :=
  match bs with
  | [y1, y2, y3, y4, mo1, mo2, d1, d2, s1, h1, h2, s2, mi1, mi2, s3, se1, se2, s4,
     ms1, ms2, ms3] =>
    if isDigitB y1 && isDigitB y2 && isDigitB y3 && isDigitB y4 &&
       isDigitB mo1 && isDigitB mo2 && isDigitB d1 && isDigitB d2 &&
       isDigitB h1 && isDigitB h2 && isDigitB mi1 && isDigitB mi2 &&
       isDigitB se1 && isDigitB se2 && isDigitB ms1 && isDigitB ms2 && isDigitB ms3 &&
       decide (s1 = 45) && decide (s2 = 58) && decide (s3 = 58) && decide (s4 = 46) then
      let mo := twoDigits mo1 mo2
      let da := twoDigits d1 d2
      let ho := twoDigits h1 h2
      let mi := twoDigits mi1 mi2
      let se := twoDigits se1 se2
      if 1 ≤ mo ∧ mo ≤ 12 ∧ 1 ≤ da ∧ da ≤ 31 ∧ ho ≤ 23 ∧ mi ≤ 59 ∧ se ≤ 59 then
        .ok
          { year := (((y1 - 48) * 1000 + (y2 - 48) * 100 + (y3 - 48) * 10 + (y4 - 48) : Nat) : Int)
            month := mo, day := da, hour := ho, minute := mi, second := se
            nsec := ((ms1 - 48) * 100 + (ms2 - 48) * 10 + (ms3 - 48)) * 1000000 }
      else .error .badTime
    else .error .badTime
  | _ => .error .badTime

/-- Go's zero time.Time (January 1, year 1, midnight), the value time.Parse
returns alongside an error. -/
def zeroDateTime : DateTime :=
  { year := 1, month := 1, day := 1, hour := 0, minute := 0, second := 0, nsec := 0 }

/-- Dynamic value passed to a Set method, modelling the interface argument:
nil, or a value of some concrete Go type. -/
inductive GoVal where
  | goNil
  | goBytes (bs : List Nat)
  | goString (s : List Nat)
  | goInt (n : Int)
  | goUint (n : Nat)
  | goFloat (f : F64)
  | goBool (b : Bool)
  | goTime (t : DateTime)
  deriving DecidableEq

/-- Embeds the `Raw` struct: its only field is a byte slice that may be nil. -/
structure RawV where
  value : Option (List Nat)
  deriving DecidableEq

/-- Embeds the `String` struct (value plus validity flag). -/
structure StringV where
  value : List Nat
  valid : Bool
  deriving DecidableEq

/-- Embeds the `Int` struct. -/
structure IntV where
  value : Int
  valid : Bool
  deriving DecidableEq

/-- Embeds the `Uint` struct. -/
structure UintV where
  value : Nat
  valid : Bool
  deriving DecidableEq

/-- Embeds the `Float` struct: retained source bytes, decoded value,
validity flag. -/
structure FloatV where
  source : Option (List Nat)
  value : F64
  valid : Bool
  deriving DecidableEq

/-- Embeds the `Time` struct. -/
structure TimeV where
  value : DateTime
  valid : Bool
  deriving DecidableEq

/-- Embeds the `Bool` struct. -/
structure BoolV where
  value : Bool
  valid : Bool
  deriving DecidableEq

def RawV.IsNull (v : RawV) : Bool := v.value.isNone

def RawV.FromBytes (_v : RawV) (d : Option (List Nat)) : RawV × Option Err :=
  ({ value := d }, none)

def RawV.ToBytes (v : RawV) : Option (List Nat) := v.value

def RawV.WriteBytes (v : RawV) (buf : List Nat) : List Nat × Bool :=
  (buf ++ v.value.getD [], true)

def StringV.IsNull (v : StringV) : Bool := !v.valid

def StringV.FromBytes (v : StringV) (d : Option (List Nat)) : StringV × Option Err :=
  match d with
  | none => ({ v with valid := false }, none)
  | some bs => ({ value := bs, valid := true }, none)

def StringV.ToBytes (v : StringV) : Option (List Nat) :=
  if !v.valid || decide (v.value = []) then none else some v.value

def StringV.WriteBytes (v : StringV) (buf : List Nat) : List Nat × Bool :=
  if !v.valid || decide (v.value = []) then (buf, false) else (buf ++ v.value, true)

def IntV.IsNull (v : IntV) : Bool := !v.valid

def IntV.Value (v : IntV) : Int := v.value

def IntV.FromBytes (v : IntV) (d : Option (List Nat)) : IntV × Option Err :=
  match d with
  | none => ({ v with valid := false }, none)
  | some bs =>
    match bytesToInt bs with
    | .ok n => ({ value := n, valid := true }, none)
    | .error e => ({ value := 0, valid := true }, some e)

def IntV.ToBytes (v : IntV) : Option (List Nat) :=
  if !v.valid then none else some (intToBytes v.value)

def IntV.WriteBytes (v : IntV) (buf : List Nat) : List Nat × Bool :=
  if !v.valid then (buf, false) else (buf ++ intToBytes v.value, true)

def UintV.IsNull (v : UintV) : Bool := !v.valid

def UintV.FromBytes (v : UintV) (d : Option (List Nat)) : UintV × Option Err :=
  match d with
  | none => ({ v with valid := false }, none)
  | some bs =>
    match bytesToUint bs with
    | .ok n => ({ value := n, valid := true }, none)
    | .error e => ({ value := 0, valid := true }, some e)

def UintV.ToBytes (v : UintV) : Option (List Nat) :=
  if !v.valid then none else some (uintToBytes v.value)

def UintV.WriteBytes (v : UintV) (buf : List Nat) : List Nat × Bool :=
  if !v.valid then (buf, false) else (buf ++ uintToBytes v.value, true)

def FloatV.IsNull (v : FloatV) : Bool := !v.valid

def FloatV.Value (v : FloatV) : F64 := v.value

def FloatV.FromBytes (v : FloatV) (d : Option (List Nat)) : FloatV × Option Err :=
  match d with
  | none => ({ v with valid := false }, none)
  | some bs =>
    let r := bytesToFloat bs
    ({ source := some bs, value := r.1, valid := true }, r.2)

def FloatV.ToBytes (v : FloatV) : Option (List Nat) :=
  if !v.valid then none
  else
    match v.source with
    | some src => some src
    | none => some (floatToBytes v.value)

def FloatV.WriteBytes (v : FloatV) (buf : List Nat) : List Nat × Bool :=
  if !v.valid then (buf, false)
  else
    match v.source with
    | some src => (buf ++ src, true)
    | none => (buf ++ floatFmt v.value, true)

/-- Embeds `Float.Set` (source lines 345-358): note that it assigns value
and validity but does not touch the retained source bytes. -/
def FloatV.Set (v : FloatV) (d : GoVal) : FloatV × Option Err :=
  match d with
  | .goNil => ({ v with valid := false }, none)
  | .goFloat f => ({ v with value := f, valid := true }, none)
  | _ => (v, some .typeMismatch)

def TimeV.IsNull (v : TimeV) : Bool := !v.valid

def TimeV.FromBytes (v : TimeV) (d : Option (List Nat)) : TimeV × Option Err :=
  match d with
  | none => ({ v with valid := false }, none)
  | some bs =>
    match parseTimeLayout bs with
    | .ok t => ({ value := t, valid := true }, none)
    | .error e => ({ value := zeroDateTime, valid := true }, some e)

def TimeV.ToBytes (v : TimeV) : Option (List Nat) :=
  if !v.valid then none else some (timeToBytes v.value)

def TimeV.WriteBytes (v : TimeV) (buf : List Nat) : List Nat × Bool :=
  if !v.valid then (buf, false) else (buf ++ timeToBytes v.value, true)

def BoolV.IsNull (v : BoolV) : Bool := !v.valid

def BoolV.Value (v : BoolV) : Bool := v.value

def BoolV.FromBytes (v : BoolV) (d : Option (List Nat)) : BoolV × Option Err :=
  match d with
  | none => ({ v with valid := false }, none)
  | some bs => ({ value := decide (0 < bs.length) && decide (bs.headI = 89), valid := true }, none)

def BoolV.ToBytes (v : BoolV) : Option (List Nat) :=
  if !v.valid then none
  else if v.value then some [89] else some [78]

def BoolV.WriteBytes (v : BoolV) (buf : List Nat) : List Nat × Bool :=
  if !v.valid then (buf, false)
  else if v.value then (buf ++ [89], true) else (buf ++ [78], true)

/-- The calendar instant year 2024, month 3, day 5, 07:08:09.123. -/
def sampleInstant : DateTime :=
  { year := 2024, month := 3, day := 5, hour := 7, minute := 8, second := 9
    nsec := 123000000 }

/-- The ASCII bytes of "20240305-07:08:09.123". -/
def sampleStamp : List Nat :=
  [50, 48, 50, 52, 48, 51, 48, 53, 45, 48, 55, 58, 48, 56, 58, 48, 57, 46, 49, 50, 51]

/-! Helper lemmas about the unsigned decimal codec. -/

/-- The source's pre-multiply overflow test is exactly the test that the
multiply-add would exceed MaxUint64. -/
theorem uintStep_overflow (acc dgt : Nat) (h : dgt ≤ 9) :
    (maxUint64 / 10 < acc ∨ (acc = maxUint64 / 10 ∧ maxUint64 % 10 < dgt)) ↔
      maxUint64 < acc * 10 + dgt := by
  simp only [maxUint64]
  omega

/-- Folding more digits never decreases the accumulator. -/
theorem digitsFold_le (s : List Nat) (a : Nat) :
    a ≤ s.foldl (fun x c => x * 10 + (c - 48)) a := by
  induction s generalizing a with
  | nil => simp
  | cons c t ih =>
    simp only [List.foldl_cons]
    exact le_trans (by omega) (ih (a * 10 + (c - 48)))

/-- On all-digit input the accumulating loop of bytesToUint returns the
folded value when it fits in uint64 and the Overflow error otherwise. -/
theorem bytesToUintLoop_spec (s : List Nat) (acc : Nat)
    (hd : ∀ c ∈ s, 48 ≤ c ∧ c ≤ 57) (hacc : acc ≤ maxUint64) :
    bytesToUintLoop s acc =
      if maxUint64 < s.foldl (fun x c => x * 10 + (c - 48)) acc then .error .overflow
      else .ok (s.foldl (fun x c => x * 10 + (c - 48)) acc) := by
  induction s generalizing acc with
  | nil => simp [bytesToUintLoop, Nat.not_lt.mpr hacc]
  | cons c t ih =>
    have hc := hd c (List.mem_cons_self _ _)
    have hdt : ∀ x ∈ t, 48 ≤ x ∧ x ≤ 57 := fun x hx => hd x (List.mem_cons_of_mem _ hx)
    have hdig : c - 48 ≤ 9 := by omega
    simp only [bytesToUintLoop, List.foldl_cons]
    rw [if_neg (by omega : ¬(c < 48 ∨ 57 < c))]
    by_cases hov : maxUint64 / 10 < acc ∨ (acc = maxUint64 / 10 ∧ maxUint64 % 10 < c - 48)
    · rw [if_pos hov]
      have h1 : maxUint64 < acc * 10 + (c - 48) := (uintStep_overflow _ _ hdig).1 hov
      have h2 := digitsFold_le t (acc * 10 + (c - 48))
      rw [if_pos (lt_of_lt_of_le h1 h2)]
    · rw [if_neg hov]
      have h1 : ¬ maxUint64 < acc * 10 + (c - 48) :=
        fun h => hov ((uintStep_overflow _ _ hdig).2 h)
      exact ih (acc * 10 + (c - 48)) hdt (by omega)

/-- The digit fold computes the positional value through Nat.ofDigits. -/
theorem digitsFold_ofDigits (s : List Nat) (a : Nat) :
    s.foldl (fun x c => x * 10 + (c - 48)) a =
      a * 10 ^ s.length + Nat.ofDigits 10 ((s.map (fun c => c - 48)).reverse) := by
  induction s generalizing a with
  | nil => simp [Nat.ofDigits]
  | cons c t ih =>
    simp only [List.foldl_cons, List.map_cons, List.reverse_cons, ih, Nat.ofDigits_append,
      List.length_cons, List.length_reverse, List.length_map]
    have hone : Nat.ofDigits 10 [c - 48] = c - 48 := by simp [Nat.ofDigits]
    rw [hone]
    ring

/-- A list known to end in a given element has that element as its last. -/
theorem getLast_of_eq_concat {L M : List Nat} {x : Nat} (h : L = M ++ [x]) (hne : L ≠ []) :
    L.getLast hne = x := by
  subst h
  exact List.getLast_concat _

/-- Decimal re-encoding inverts the digit fold on digit strings without
excess leading zeros. -/
theorem uintToBytes_digitsVal (s : List Nat) (hne : s ≠ [])
    (hd : ∀ c ∈ s, 48 ≤ c ∧ c ≤ 57) (hlz : s = [48] ∨ s.headI ≠ 48) :
    uintToBytes (digitsVal s) = s := by
  rcases hlz with h0 | hhead
  · subst h0
    decide
  · match s, hne with
    | c :: t, _ =>
      have hc := hd c (List.mem_cons_self _ _)
      have hcne : c - 48 ≠ 0 := by
        simp only [List.headI] at hhead
        omega
      have hval : digitsVal (c :: t)
          = Nat.ofDigits 10 (((c :: t).map (fun x => x - 48)).reverse) := by
        simp only [digitsVal, digitsFold_ofDigits]
        simp
      have hLne : ((c :: t).map (fun x => x - 48)).reverse ≠ [] := by simp
      have hlt : ∀ l ∈ ((c :: t).map (fun x => x - 48)).reverse, l < 10 := by
        intro l hl
        rw [List.mem_reverse, List.mem_map] at hl
        obtain ⟨x, hx, hxe⟩ := hl
        have := hd x hx
        omega
      have hlast : ∀ h : ((c :: t).map (fun x => x - 48)).reverse ≠ [],
          (((c :: t).map (fun x => x - 48)).reverse).getLast h ≠ 0 := by
        intro h
        have heq : ((c :: t).map (fun x => x - 48)).reverse
            = (t.map (fun x => x - 48)).reverse ++ [c - 48] := by simp
        rw [getLast_of_eq_concat heq h]
        exact hcne
      have hdig := Nat.digits_ofDigits 10 (by norm_num)
        (((c :: t).map (fun x => x - 48)).reverse) hlt hlast
      have hnz : Nat.ofDigits 10 (((c :: t).map (fun x => x - 48)).reverse) ≠ 0 := by
        intro h
        rw [h] at hdig
        simp at hdig
      rw [hval]
      simp only [uintToBytes, if_neg hnz]
      rw [hdig, List.reverse_reverse, List.map_map]
      have hid : (c :: t).map ((fun d => d + 48) ∘ fun x => x - 48) = (c :: t).map id := by
        apply List.map_congr_left
        intro x hx
        have := hd x hx
        simp only [Function.comp_apply, id_eq]
        omega
      rw [hid, List.map_id]

/-- The literal "1.50" decodes to 3/2 on the fast path, with no error. -/
theorem bytesToFloat_onePointFiveZero :
    bytesToFloat [49, 46, 53, 48] = (.fin (3 / 2), none) := by
  simp [bytesToFloat, floatIntLoop, floatFracPhase, floatFracLoop, floatSign,
    allowedFloatChar, isDigitB]
  norm_num

/-! Claim theorems. -/

/-- Claim C5: bytesToUint returns an Overflow error, and never wraps, exactly
for those digit strings whose decimal value exceeds the maximum representable
uint64 (the check sitting before each multiply-add); in-range digit strings
decode to their exact value. -/
theorem bytesToUint_overflow_exact (d : List Nat) (hne : d ≠ [])
    (hd : ∀ c ∈ d, 48 ≤ c ∧ c ≤ 57) :
    bytesToUint d =
      if maxUint64 < digitsVal d then .error .overflow else .ok (digitsVal d) := by
  match d, hne with
  | c :: t, _ =>
    have h := bytesToUintLoop_spec (c :: t) 0 hd (by simp [maxUint64])
    simpa [bytesToUint, digitsVal] using h

/-- Witness for C5: a concrete in-range string decodes to its value, and the
concrete string for MaxUint64 + 1 overflows. -/
theorem bytesToUint_overflow_exact_witness :
    bytesToUint [49, 48, 55] = .ok 107 ∧
    bytesToUint [49, 56, 52, 52, 54, 55, 52, 52, 48, 55, 51, 55, 48, 57, 53, 53, 49, 54, 49, 54]
      = .error .overflow := by
  constructor
  · have h := bytesToUint_overflow_exact [49, 48, 55] (by decide) (by decide)
    rw [h]
    decide
  · have h := bytesToUint_overflow_exact
      [49, 56, 52, 52, 54, 55, 52, 52, 48, 55, 51, 55, 48, 57, 53, 53, 49, 54, 49, 54]
      (by decide) (by decide)
    rw [h]
    decide

/-- Claim C8: decoding an ASCII unsigned-decimal string whose value fits in
uint64 and which has no leading zeros beyond a single "0", then re-encoding
through ToBytes, yields exactly the original string. -/
theorem uint_decode_encode_roundtrip (v : UintV) (s : List Nat) (hne : s ≠ [])
    (hd : ∀ c ∈ s, 48 ≤ c ∧ c ≤ 57)
    (hv : digitsVal s ≤ maxUint64)
    (hlz : s = [48] ∨ s.headI ≠ 48) :
    (UintV.FromBytes v (some s)).2 = none ∧
    (UintV.FromBytes v (some s)).1.ToBytes = some s := by
  have hb : bytesToUint s = .ok (digitsVal s) := by
    match s, hne with
    | c :: t, _ =>
      have h := bytesToUintLoop_spec (c :: t) 0 hd (by simp [maxUint64])
      have hfold : List.foldl (fun x c => x * 10 + (c - 48)) 0 (c :: t)
          = digitsVal (c :: t) := rfl
      rw [hfold] at h
      simp only [bytesToUint]
      rw [h, if_neg (Nat.not_lt.mpr hv)]
  constructor
  · simp [UintV.FromBytes, hb]
  · simp only [UintV.FromBytes, hb, UintV.ToBytes]
    rw [uintToBytes_digitsVal s hne hd hlz]
    simp

/-- Witness for C8: the string "107" decodes then re-encodes to itself. -/
theorem uint_decode_encode_roundtrip_witness :
    (UintV.FromBytes { value := 0, valid := false } (some [49, 48, 55])).2 = none ∧
    (UintV.FromBytes { value := 0, valid := false } (some [49, 48, 55])).1.ToBytes
      = some [49, 48, 55] :=
  uint_decode_encode_roundtrip { value := 0, valid := false } [49, 48, 55]
    (by decide) (by decide) (by decide) (by decide)

/-- Claim C9: Bool.FromBytes on a non-nil zero-length slice returns no error
and leaves the value set (IsNull false) with native value false, so ToBytes
then returns the single byte 'N'. -/
theorem bool_empty_input_sets_false :
    (BoolV.FromBytes { value := true, valid := false } (some [])).2 = none ∧
    (BoolV.FromBytes { value := true, valid := false } (some [])).1.IsNull = false ∧
    (BoolV.FromBytes { value := true, valid := false } (some [])).1.Value = false ∧
    (BoolV.FromBytes { value := true, valid := false } (some [])).1.ToBytes = some [78] := by
  decide

/-- Claim C10: Int.FromBytes on a one-byte input holding only a sign
character returns no error and sets the value to 0, leaving it set. -/
theorem int_sign_only_decodes_zero :
    IntV.FromBytes { value := 7, valid := false } (some [45])
      = ({ value := 0, valid := true }, none) ∧
    IntV.FromBytes { value := 7, valid := false } (some [43])
      = ({ value := 0, valid := true }, none) ∧
    (IntV.FromBytes { value := 7, valid := false } (some [45])).1.IsNull = false ∧
    (IntV.FromBytes { value := 7, valid := false } (some [43])).1.IsNull = false := by
  decide

/-- Claim C3: for any input accepted by Float.FromBytes, immediately
re-encoding with ToBytes (no intervening Set) returns exactly the input
bytes, whatever their spelling (trailing zeros, exponent notation, ...). -/
theorem float_decode_reencode (v : FloatV) (d : List Nat)
    (_h : (FloatV.FromBytes v (some d)).2 = none) :
    (FloatV.FromBytes v (some d)).1.ToBytes = some d := by
  simp [FloatV.FromBytes, FloatV.ToBytes]

/-- Witness for C3: the literal "1.50" round-trips byte-identically. -/
theorem float_decode_reencode_witness :
    (FloatV.FromBytes { source := none, value := .fin 0, valid := false }
      (some [49, 46, 53, 48])).1.ToBytes = some [49, 46, 53, 48] :=
  float_decode_reencode { source := none, value := .fin 0, valid := false }
    [49, 46, 53, 48] (by simp [FloatV.FromBytes, bytesToFloat_onePointFiveZero])

/-- Claim C2 (behaviour at the failing input): Float.Set does not clear the
retained source bytes, so after decoding "1.50" and then assigning 2.5 via
Set, ToBytes still re-emits "1.50" — the bytes of the superseded value
1.5 — instead of an encoding of the newly assigned 2.5. -/
theorem float_set_keeps_stale_source :
    (FloatV.FromBytes { source := none, value := .fin 0, valid := false }
        (some [49, 46, 53, 48])).2 = none ∧
    (FloatV.Set (FloatV.FromBytes { source := none, value := .fin 0, valid := false }
        (some [49, 46, 53, 48])).1 (GoVal.goFloat (.fin (5 / 2)))).2 = none ∧
    (FloatV.Set (FloatV.FromBytes { source := none, value := .fin 0, valid := false }
        (some [49, 46, 53, 48])).1 (GoVal.goFloat (.fin (5 / 2)))).1.Value = .fin (5 / 2) ∧
    (FloatV.Set (FloatV.FromBytes { source := none, value := .fin 0, valid := false }
        (some [49, 46, 53, 48])).1 (GoVal.goFloat (.fin (5 / 2)))).1.ToBytes
      = some [49, 46, 53, 48] ∧
    bytesToFloat [49, 46, 53, 48] = (.fin (3 / 2), none) ∧ ((3 : ℚ) / 2 ≠ 5 / 2) := by
  refine ⟨?_, ?_, ?_, ?_, bytesToFloat_onePointFiveZero, by norm_num⟩ <;>
    simp [FloatV.FromBytes, bytesToFloat_onePointFiveZero, FloatV.Set, FloatV.Value,
      FloatV.ToBytes]

/-- Counterexample to claim C1 as stated: a failed Int.FromBytes on the
non-digit byte 'x' mutates observable state — the value was unset
(IsNull true, ToBytes nil) and afterwards is set to 0 (IsNull false,
ToBytes "0"). -/
theorem int_fromBytes_error_mutates :
    IntV.IsNull { value := 0, valid := false } = true ∧
    IntV.ToBytes { value := 0, valid := false } = none ∧
    (IntV.FromBytes { value := 0, valid := false } (some [120])).2 = some Err.nonNumeric ∧
    (IntV.FromBytes { value := 0, valid := false } (some [120])).1.IsNull = false ∧
    (IntV.FromBytes { value := 0, valid := false } (some [120])).1.ToBytes = some [48] := by
  decide

/-- Claim C1 as amended: when FromBytes is called on non-nil bytes and the
parse fails, the value does not keep its pre-call state; it is marked set
(IsNull false) whatever the prior state was — Int and Uint are left holding
0, Float retains the failed input as its source (its numeric value is
whatever the failed parse produced, e.g. an infinity on a slow-path range
overflow), and Time is left holding the zero time. -/
theorem fromBytes_error_marks_set (vi : IntV) (vu : UintV) (vf : FloatV) (vt : TimeV)
    (d1 d2 d3 d4 : List Nat)
    (h1 : (IntV.FromBytes vi (some d1)).2.isSome)
    (h2 : (UintV.FromBytes vu (some d2)).2.isSome)
    (_h3 : (FloatV.FromBytes vf (some d3)).2.isSome)
    (h4 : (TimeV.FromBytes vt (some d4)).2.isSome) :
    (IntV.FromBytes vi (some d1)).1 = { value := 0, valid := true } ∧
    (UintV.FromBytes vu (some d2)).1 = { value := 0, valid := true } ∧
    ((FloatV.FromBytes vf (some d3)).1.IsNull = false ∧
      (FloatV.FromBytes vf (some d3)).1.source = some d3) ∧
    (TimeV.FromBytes vt (some d4)).1 = { value := zeroDateTime, valid := true } := by
  refine ⟨?_, ?_, ?_, ?_⟩
  · rcases hb : bytesToInt d1 with e | n <;> simp [IntV.FromBytes, hb] at h1 ⊢
  · rcases hb : bytesToUint d2 with e | n <;> simp [UintV.FromBytes, hb] at h2 ⊢
  · simp [FloatV.FromBytes, FloatV.IsNull]
  · rcases hb : parseTimeLayout d4 with e | dt <;> simp [TimeV.FromBytes, hb] at h4 ⊢

/-- Witness for the amended C1: decoding the byte 'x' fails on Int, Uint,
Float and Time alike and leaves each value set. -/
theorem fromBytes_error_marks_set_witness :
    (IntV.FromBytes { value := 5, valid := false } (some [120])).1
      = { value := 0, valid := true } ∧
    (UintV.FromBytes { value := 5, valid := false } (some [120])).1
      = { value := 0, valid := true } ∧
    ((FloatV.FromBytes { source := none, value := .fin 0, valid := false }
        (some [120])).1.IsNull = false ∧
      (FloatV.FromBytes { source := none, value := .fin 0, valid := false }
        (some [120])).1.source = some [120]) ∧
    (TimeV.FromBytes { value := zeroDateTime, valid := false } (some [120])).1
      = { value := zeroDateTime, valid := true } :=
  fromBytes_error_marks_set { value := 5, valid := false } { value := 5, valid := false }
    { source := none, value := .fin 0, valid := false }
    { value := zeroDateTime, valid := false } [120] [120] [120] [120]
    (by decide) (by decide) (by decide) (by decide)

/-- Counterexample to claim C6 as stated: the unset Raw value's WriteBytes
reports true, not false, although it writes nothing. -/
theorem raw_writeBytes_true_when_null :
    RawV.IsNull { value := none } = true ∧
    RawV.WriteBytes { value := none } [] = ([], true) := by
  decide

/-- Claim C6 as amended: on every variant, FromBytes nil succeeds and unsets
the value whatever its prior state (set or unset); every unset value encodes
to nil and WriteBytes writes nothing to the buffer; WriteBytes reports false
for every variant except Raw, whose WriteBytes returns true even when
unset. -/
theorem variants_null_unset_behaviour
    (r : RawV) (s : StringV) (iv : IntV) (u : UintV) (f : FloatV) (t : TimeV) (b : BoolV)
    (buf : List Nat)
    (hr : r.IsNull = true) (hs : s.IsNull = true) (hi : iv.IsNull = true)
    (hu : u.IsNull = true) (hf : f.IsNull = true) (ht : t.IsNull = true)
    (hb : b.IsNull = true) :
    (∀ x : RawV, (RawV.FromBytes x none).1.IsNull = true ∧
      (RawV.FromBytes x none).2 = none) ∧
    (∀ x : StringV, (StringV.FromBytes x none).1.IsNull = true ∧
      (StringV.FromBytes x none).2 = none) ∧
    (∀ x : IntV, (IntV.FromBytes x none).1.IsNull = true ∧
      (IntV.FromBytes x none).2 = none) ∧
    (∀ x : UintV, (UintV.FromBytes x none).1.IsNull = true ∧
      (UintV.FromBytes x none).2 = none) ∧
    (∀ x : FloatV, (FloatV.FromBytes x none).1.IsNull = true ∧
      (FloatV.FromBytes x none).2 = none) ∧
    (∀ x : TimeV, (TimeV.FromBytes x none).1.IsNull = true ∧
      (TimeV.FromBytes x none).2 = none) ∧
    (∀ x : BoolV, (BoolV.FromBytes x none).1.IsNull = true ∧
      (BoolV.FromBytes x none).2 = none) ∧
    r.ToBytes = none ∧ s.ToBytes = none ∧ iv.ToBytes = none ∧ u.ToBytes = none ∧
    f.ToBytes = none ∧ t.ToBytes = none ∧ b.ToBytes = none ∧
    RawV.WriteBytes r buf = (buf, true) ∧
    StringV.WriteBytes s buf = (buf, false) ∧
    IntV.WriteBytes iv buf = (buf, false) ∧
    UintV.WriteBytes u buf = (buf, false) ∧
    FloatV.WriteBytes f buf = (buf, false) ∧
    TimeV.WriteBytes t buf = (buf, false) ∧
    BoolV.WriteBytes b buf = (buf, false) := by
  refine ⟨fun x => by simp [RawV.FromBytes, RawV.IsNull],
    fun x => by simp [StringV.FromBytes, StringV.IsNull],
    fun x => by simp [IntV.FromBytes, IntV.IsNull],
    fun x => by simp [UintV.FromBytes, UintV.IsNull],
    fun x => by simp [FloatV.FromBytes, FloatV.IsNull],
    fun x => by simp [TimeV.FromBytes, TimeV.IsNull],
    fun x => by simp [BoolV.FromBytes, BoolV.IsNull], ?_⟩
  obtain ⟨rv⟩ := r
  obtain ⟨sv, sb⟩ := s
  obtain ⟨nv, nb⟩ := iv
  obtain ⟨uv, ub⟩ := u
  obtain ⟨fs, fv, fb⟩ := f
  obtain ⟨tv, tb⟩ := t
  obtain ⟨bv, bb⟩ := b
  simp only [RawV.IsNull, Option.isNone_iff_eq_none] at hr
  simp only [StringV.IsNull, Bool.not_eq_true'] at hs
  simp only [IntV.IsNull, Bool.not_eq_true'] at hi
  simp only [UintV.IsNull, Bool.not_eq_true'] at hu
  simp only [FloatV.IsNull, Bool.not_eq_true'] at hf
  simp only [TimeV.IsNull, Bool.not_eq_true'] at ht
  simp only [BoolV.IsNull, Bool.not_eq_true'] at hb
  subst hr hs hi hu hf ht hb
  simp [RawV.ToBytes, RawV.WriteBytes,
    StringV.ToBytes, StringV.WriteBytes,
    IntV.ToBytes, IntV.WriteBytes,
    UintV.ToBytes, UintV.WriteBytes,
    FloatV.ToBytes, FloatV.WriteBytes,
    TimeV.ToBytes, TimeV.WriteBytes,
    BoolV.ToBytes, BoolV.WriteBytes]

/-- Witness for the amended C6: a Raw value that is set (holding the byte
'A') becomes unset, without error, when decoded from nil. -/
theorem variants_null_unset_behaviour_witness :
    (RawV.FromBytes { value := some [65] } none).1.IsNull = true ∧
    (RawV.FromBytes { value := some [65] } none).2 = none :=
  (variants_null_unset_behaviour { value := none } { value := [], valid := false }
    { value := 0, valid := false } { value := 0, valid := false }
    { source := none, value := .fin 0, valid := false } { value := zeroDateTime, valid := false }
    { value := false, valid := false } [65]
    (by decide) (by decide) (by decide) (by decide) (by decide) (by decide) (by decide)).1
    { value := some [65] }

/-- Claim C7: timeToBytes always yields exactly 21 bytes, the year is
clamped to at least 0, the instant 2024-03-05 07:08:09.123 encodes to
exactly "20240305-07:08:09.123", and decoding that string then re-encoding
reproduces it. -/
theorem timeToBytes_layout_roundtrip :
    (∀ t : DateTime, (timeToBytes t).length = 21) ∧
    (∀ t : DateTime, timeToBytes t = timeToBytes { t with year := max t.year 0 }) ∧
    timeToBytes sampleInstant = sampleStamp ∧
    TimeV.FromBytes { value := zeroDateTime, valid := false } (some sampleStamp)
      = ({ value := sampleInstant, valid := true }, none) ∧
    (TimeV.FromBytes { value := zeroDateTime, valid := false }
        (some sampleStamp)).1.ToBytes = some sampleStamp := by
  refine ⟨fun t => rfl, fun t => ?_, by decide, by decide, by decide⟩
  obtain ⟨y, mo, da, ho, mi, se, ns⟩ := t
  have hy : (if y < 0 then 0 else y.toNat) = (if max y 0 < 0 then 0 else (max y 0).toNat) := by
    rcases le_or_lt 0 y with h | h
    · rw [if_neg (by omega), if_neg (by omega)]
      omega
    · rw [if_pos h, if_neg (by omega)]
      omega
  simp only [timeToBytes]
  rw [hy]

end Fix
